import Mathlib

/-!
# Verification of the g-match matching subsystem

Shallow embedding of the matcher sources (`matcher/edge_calculator.py`,
`matcher/match_scheduler.py`) of the g-match backend, together with
definitions taken from the specification's own wording where a claim
compares the code against the spec formula.

Python floats are modelled as exact rationals; Python `round(x, 2)` is
modelled as round-half-to-even (banker's rounding) on `ℚ`.  JSON objects
are modelled as records whose `Option` fields record key presence where a
field may be absent, and Python dict access `d[k]` that can raise
`KeyError` is modelled in `Except`.
-/

namespace GMatch

/-- Round half to even (banker's rounding) to an integer, as Python `round`. -/
def rhe (x : ℚ) : ℤ :=
  if x - ⌊x⌋ < 1/2 then ⌊x⌋
  else if (1 : ℚ)/2 < x - ⌊x⌋ then ⌊x⌋ + 1
  else if Even ⌊x⌋ then ⌊x⌋ else ⌊x⌋ + 1

/-- Python `round(x, 2)`: round to two fractional digits. -/
def round2 (x : ℚ) : ℚ := (rhe (100 * x) : ℚ) / 100

/-- A JSON survey value: a number, or a non-numeric (string) value. -/
inductive SVal where
  | num (q : ℚ)
  | str (s : String)
deriving DecidableEq, Repr

/-- The `basic` record of a queue entry, as read by the edge calculator.
`mate_smoker`, `mate_fridge`, `mate_router` are read with
`.get(key, 0)`, so a missing key is the value `0` here. -/
structure Basic where
  gender : String
  dorm_building : String
  stay_period : ℤ
  is_smoker : Bool
  has_fridge : Bool
  has_router : Bool
  mate_smoker : ℤ
  mate_fridge : ℤ
  mate_router : ℤ
deriving DecidableEq, Repr

/-- A queue entry as consumed by the edge calculator
(`user_pk`, `basic`, `survey`, `weights`, `edge_calculated`, `registered_at`). -/
structure CalcUser where
  user_pk : ℕ
  basic : Basic
  survey : List (String × SVal)
  weights : List (String × ℚ)
  priority : ℤ
  registered_at : ℤ
  edge_calculated : Bool
deriving DecidableEq, Repr

/-- Python `dict.get` on a JSON object modelled as an association list. -/
def alookup (l : List (String × α)) (k : String) : Option α :=
  (l.find? (fun p => p.1 == k)).map (·.2)

/-- `check_hard_filter`: only `gender` is compared. -/
def check_hard_filter (user_a user_b : CalcUser) : Bool :=
  user_a.basic.gender == user_b.basic.gender

/-- 5-point penalty per mismatch (`PENALTY_SCORE` in the source). -/
def PENALTY_SCORE : ℚ := 5

/-- `_calculate_preference_penalty`: one-directional preference penalty
over the smoker, fridge and router preferences. -/
def calculate_preference_penalty (checker target : Basic) : ℚ :=
  (if checker.mate_smoker = 1 ∧ target.is_smoker = false then PENALTY_SCORE else 0) +
  (if checker.mate_smoker = 2 ∧ target.is_smoker = true then PENALTY_SCORE else 0) +
  (if checker.mate_fridge = 1 ∧ target.has_fridge = false then PENALTY_SCORE else 0) +
  (if checker.mate_fridge = 2 ∧ target.has_fridge = true then PENALTY_SCORE else 0) +
  (if checker.mate_router = 1 ∧ target.has_router = false then PENALTY_SCORE else 0) +
  (if checker.mate_router = 2 ∧ target.has_router = true then PENALTY_SCORE else 0)

/-- `calculate_basic_penalty`: dorm building, stay period, and both
directions of the preference penalty. -/
def calculate_basic_penalty (user_a user_b : CalcUser) : ℚ :=
  (if user_a.basic.dorm_building ≠ user_b.basic.dorm_building then PENALTY_SCORE else 0) +
  (if user_a.basic.stay_period ≠ user_b.basic.stay_period then PENALTY_SCORE else 0) +
  calculate_preference_penalty user_a.basic user_b.basic +
  calculate_preference_penalty user_b.basic user_a.basic

/-- The loop body of `_calculate_one_direction`: accumulate `weighted_sum`
and `weight_total` over the weight list, skipping keys missing from either
survey; a non-numeric value reaching the subtraction raises `TypeError`. -/
def dirLoop (survey_from survey_to : List (String × SVal)) :
    List (String × ℚ) → ℚ → ℚ → Except String (ℚ × ℚ)
  | [], weighted_sum, weight_total => .ok (weighted_sum, weight_total)
  | (k, w) :: rest, weighted_sum, weight_total =>
    match alookup survey_from k, alookup survey_to k with
    | none, _ => dirLoop survey_from survey_to rest weighted_sum weight_total
    | some _, none => dirLoop survey_from survey_to rest weighted_sum weight_total
    | some (.num sf), some (.num st) =>
        dirLoop survey_from survey_to rest
          (weighted_sum + w * (1 - |sf - st| / 4)) (weight_total + w)
    | some _, some _ => .error "TypeError"

/-- `_calculate_one_direction`: `Σ(w_i · sim_i) / Σ w_i`, returning `0`
when the accumulated weight total is zero. -/
def calculate_one_direction (from_user to_user : CalcUser) : Except String ℚ := do
  let (weighted_sum, weight_total) ←
    dirLoop from_user.survey to_user.survey from_user.weights 0 0
  if weight_total = 0 then pure 0 else pure (weighted_sum / weight_total)

/-- `calculate_similarity`: `round(100 · (S(a→b) + S(b→a)) / 2, 2)`. -/
def calculate_similarity (user_a user_b : CalcUser) : Except String ℚ := do
  let score_a_to_b ← calculate_one_direction user_a user_b
  let score_b_to_a ← calculate_one_direction user_b user_a
  pure (round2 (100 * (score_a_to_b + score_b_to_a) / 2))

/-- `calculate_final_score`: similarity minus penalty, floored at `0`,
rounded to two digits. -/
def calculate_final_score (user_a user_b : CalcUser) : Except String ℚ := do
  let similarity ← calculate_similarity user_a user_b
  let penalty := calculate_basic_penalty user_a user_b
  pure (round2 (max 0 (similarity - penalty)))

/-! ## Spec-side scoring definitions (for claim C1)

These follow the words of the specification, to be compared with the
source functions above: the directional score `S(u→v)` is the weighted
inverse-distance average over `u`'s weight keys, the symmetric score is
`100·(S(u→v)+S(v→u))/2` rounded to two digits, and the penalty is
subtracted, clamped to `[0, 100]`. -/

/-- Numeric value of a survey answer; `0` as a junk default (only
referenced under completeness hypotheses). -/
def numD (v : Option SVal) : ℚ :=
  match v with
  | some (.num q) => q
  | _ => 0

/-- Spec formula: directional score `S(u→v)`, `0` when `Σ w_u(k) = 0`. -/
def specS (u v : CalcUser) : ℚ :=
  if (u.weights.map (·.2)).sum = 0 then 0
  else (u.weights.map (fun p =>
    p.2 * (1 - |numD (alookup u.survey p.1) - numD (alookup v.survey p.1)| / 4))).sum /
      (u.weights.map (·.2)).sum

/-- The claim's penalty: 5 per mismatch in `dormBuilding` and in
`stayPeriod`, and 5 per violated `mateFridge`/`mateRouter` preference held
by either side — and no other terms. -/
def specPenaltyClaim (u v : CalcUser) : ℚ :=
  (if u.basic.dorm_building ≠ v.basic.dorm_building then 5 else 0) +
  (if u.basic.stay_period ≠ v.basic.stay_period then 5 else 0) +
  (if u.basic.mate_fridge = 1 ∧ v.basic.has_fridge = false then 5 else 0) +
  (if u.basic.mate_fridge = 2 ∧ v.basic.has_fridge = true then 5 else 0) +
  (if u.basic.mate_router = 1 ∧ v.basic.has_router = false then 5 else 0) +
  (if u.basic.mate_router = 2 ∧ v.basic.has_router = true then 5 else 0) +
  (if v.basic.mate_fridge = 1 ∧ u.basic.has_fridge = false then 5 else 0) +
  (if v.basic.mate_fridge = 2 ∧ u.basic.has_fridge = true then 5 else 0) +
  (if v.basic.mate_router = 1 ∧ u.basic.has_router = false then 5 else 0) +
  (if v.basic.mate_router = 2 ∧ u.basic.has_router = true then 5 else 0)

/-- The amended penalty: the claim's penalty plus 5 per violated
`mateSmoker` preference held by either side. -/
def specPenaltyAmended (u v : CalcUser) : ℚ :=
  specPenaltyClaim u v +
  (if u.basic.mate_smoker = 1 ∧ v.basic.is_smoker = false then 5 else 0) +
  (if u.basic.mate_smoker = 2 ∧ v.basic.is_smoker = true then 5 else 0) +
  (if v.basic.mate_smoker = 1 ∧ u.basic.is_smoker = false then 5 else 0) +
  (if v.basic.mate_smoker = 2 ∧ u.basic.is_smoker = true then 5 else 0)

/-- The claim's final-score formula: symmetric score minus the claim's
penalty, clamped to `[0, 100]`, rounded to two digits. -/
def specFinalScore (u v : CalcUser) : ℚ :=
  round2 (min 100 (max 0
    (round2 (100 * (specS u v + specS v u) / 2) - specPenaltyClaim u v)))

/-- The amended final-score formula: as `specFinalScore`, with the
`mateSmoker` penalty terms included. -/
def specFinalScoreAmended (u v : CalcUser) : ℚ :=
  round2 (min 100 (max 0
    (round2 (100 * (specS u v + specS v u) / 2) - specPenaltyAmended u v)))

/-- Every weight key of `u` has a numeric answer in both surveys
("complete surveys"). -/
def CompleteFor (u v : CalcUser) : Prop :=
  ∀ p ∈ u.weights, ∃ qf qt,
    alookup u.survey p.1 = some (.num qf) ∧ alookup v.survey p.1 = some (.num qt)

/-- All numeric answers of a survey lie in `1..5`. -/
def AnswersInRange (s : List (String × SVal)) : Prop :=
  ∀ p ∈ s, ∀ q : ℚ, p.2 = SVal.num q → 1 ≤ q ∧ q ≤ 5

/-! ### Rounding lemmas -/

lemma rhe_intCast (n : ℤ) : rhe (n : ℚ) = n := by
  unfold rhe
  norm_num

lemma round2_int_div100 (j : ℤ) : round2 ((j : ℚ) / 100) = (j : ℚ) / 100 := by
  unfold round2
  have h : (100 : ℚ) * ((j : ℚ) / 100) = (j : ℚ) := by ring
  rw [h, rhe_intCast]

lemma rhe_le_of_le {x : ℚ} {n : ℤ} (h : x ≤ n) : rhe x ≤ n := by
  unfold rhe
  have hf : ⌊x⌋ ≤ n := by
    have := Int.floor_le_floor h
    rwa [Int.floor_intCast] at this
  have hfl : (⌊x⌋ : ℚ) ≤ x := Int.floor_le x
  split_ifs with h1 h2 h3
  · exact hf
  · have hx : (⌊x⌋ : ℚ) < x := by linarith
    have : ⌊x⌋ < n := by
      by_contra hc
      push_neg at hc
      have : (n : ℚ) ≤ (⌊x⌋ : ℚ) := by exact_mod_cast hc
      linarith
    omega
  · exact hf
  · have hx2 : x - ⌊x⌋ = 1/2 := le_antisymm (not_lt.mp h2) (not_lt.mp h1)
    have hq : (⌊x⌋ : ℚ) < (n : ℚ) := by linarith
    have : ⌊x⌋ < n := by exact_mod_cast hq
    omega

/-! ### Directional-score lemmas -/

lemma dirLoop_ok (sf st : List (String × SVal)) :
    ∀ (l : List (String × ℚ)) (ws wt : ℚ),
      (∀ p ∈ l, ∃ qf qt,
        alookup sf p.1 = some (.num qf) ∧ alookup st p.1 = some (.num qt)) →
      dirLoop sf st l ws wt = .ok
        (ws + (l.map (fun p =>
            p.2 * (1 - |numD (alookup sf p.1) - numD (alookup st p.1)| / 4))).sum,
         wt + (l.map (·.2)).sum) := by
  intro l
  induction l with
  | nil => intro ws wt _; simp [dirLoop]
  | cons p rest ih =>
    intro ws wt h
    obtain ⟨qf, qt, hf, ht⟩ := h p (List.mem_cons_self _ _)
    obtain ⟨k, w⟩ := p
    simp only at hf ht
    simp only [dirLoop, hf, ht]
    rw [ih _ _ (fun p hp => h p (List.mem_cons_of_mem _ hp))]
    simp only [Except.ok.injEq, Prod.mk.injEq, List.map_cons, List.sum_cons]
    constructor
    · simp only [numD, hf, ht]
      ring
    · ring

lemma calculate_one_direction_eq {u v : CalcUser} (h : CompleteFor u v) :
    calculate_one_direction u v = .ok (specS u v) := by
  unfold calculate_one_direction specS
  rw [dirLoop_ok u.survey v.survey u.weights 0 0 h]
  simp only [Except.bind, bind, zero_add]
  split <;> rfl

lemma specS_le_one {u v : CalcUser} (hw : ∀ p ∈ u.weights, 0 ≤ p.2) :
    specS u v ≤ 1 := by
  unfold specS
  split_ifs with h0
  · norm_num
  · have hW : (0 : ℚ) ≤ (u.weights.map (·.2)).sum := by
      apply List.sum_nonneg
      intro x hx
      obtain ⟨p, hp, rfl⟩ := List.mem_map.mp hx
      exact hw p hp
    have hWpos : (0 : ℚ) < (u.weights.map (·.2)).sum := lt_of_le_of_ne hW (Ne.symm h0)
    rw [div_le_one hWpos]
    apply List.sum_le_sum
    intro p hp
    have h1 : |numD (alookup u.survey p.1) - numD (alookup v.survey p.1)| / 4 ≥ 0 := by
      positivity
    have := hw p hp
    nlinarith

/-! ### Penalty lemmas -/

lemma calculate_basic_penalty_eq (u v : CalcUser) :
    calculate_basic_penalty u v = specPenaltyAmended u v := by
  simp only [calculate_basic_penalty, calculate_preference_penalty,
    specPenaltyAmended, specPenaltyClaim, PENALTY_SCORE]
  ring

lemma specPenaltyAmended_exists_nat (u v : CalcUser) :
    ∃ m : ℕ, specPenaltyAmended u v = (m : ℚ) := by
  have step : ∀ (c : Prop) [Decidable c] (x : ℚ), (∃ n : ℕ, x = (n : ℚ)) →
      ∃ m : ℕ, (if c then (5:ℚ) else 0) + x = (m : ℚ) := by
    intro c _ x hx
    obtain ⟨n, hn⟩ := hx
    by_cases hc : c
    · refine ⟨5 + n, ?_⟩
      simp only [hc, if_true, hn]
      push_cast
      ring
    · exact ⟨n, by simp [hc, hn]⟩
  unfold specPenaltyAmended specPenaltyClaim
  -- reassociate into a right-nested sum and peel the indicators one by one
  obtain ⟨m, hm⟩ : ∃ m : ℕ,
      (if u.basic.dorm_building ≠ v.basic.dorm_building then (5:ℚ) else 0) +
      ((if u.basic.stay_period ≠ v.basic.stay_period then (5:ℚ) else 0) +
      ((if u.basic.mate_fridge = 1 ∧ v.basic.has_fridge = false then (5:ℚ) else 0) +
      ((if u.basic.mate_fridge = 2 ∧ v.basic.has_fridge = true then (5:ℚ) else 0) +
      ((if u.basic.mate_router = 1 ∧ v.basic.has_router = false then (5:ℚ) else 0) +
      ((if u.basic.mate_router = 2 ∧ v.basic.has_router = true then (5:ℚ) else 0) +
      ((if v.basic.mate_fridge = 1 ∧ u.basic.has_fridge = false then (5:ℚ) else 0) +
      ((if v.basic.mate_fridge = 2 ∧ u.basic.has_fridge = true then (5:ℚ) else 0) +
      ((if v.basic.mate_router = 1 ∧ u.basic.has_router = false then (5:ℚ) else 0) +
      ((if v.basic.mate_router = 2 ∧ u.basic.has_router = true then (5:ℚ) else 0) +
      ((if u.basic.mate_smoker = 1 ∧ v.basic.is_smoker = false then (5:ℚ) else 0) +
      ((if u.basic.mate_smoker = 2 ∧ v.basic.is_smoker = true then (5:ℚ) else 0) +
      ((if v.basic.mate_smoker = 1 ∧ u.basic.is_smoker = false then (5:ℚ) else 0) +
      (if v.basic.mate_smoker = 2 ∧ u.basic.is_smoker = true then (5:ℚ) else 0)))))))))))))
      = (m : ℚ) := by
    iterate 13 apply step
    by_cases hc : v.basic.mate_smoker = 2 ∧ u.basic.is_smoker = true
    · exact ⟨5, by simp [hc]⟩
    · exact ⟨0, by simp [hc]⟩
  exact ⟨m, by rw [← hm]; ring⟩

/-! ### Claim C1 -/

/-- Claim C1 (amended).  For complete numeric surveys with answers in `1..5`
and non-negative weights, the final score of the source equals the spec
formula amended with the `mateSmoker` penalty terms; when neither side
holds a `mateSmoker` preference (the spec's data model has no such field,
and the queue producer writes none) it equals the claim's own formula. -/
theorem final_score_eq_spec_formula (u v : CalcUser)
    (hcu : CompleteFor u v) (hcv : CompleteFor v u)
    (hwu : ∀ p ∈ u.weights, 0 ≤ p.2) (hwv : ∀ p ∈ v.weights, 0 ≤ p.2)
    (hau : AnswersInRange u.survey) (hav : AnswersInRange v.survey) :
    calculate_final_score u v = .ok (specFinalScoreAmended u v) ∧
    (u.basic.mate_smoker = 0 → v.basic.mate_smoker = 0 →
      calculate_final_score u v = .ok (specFinalScore u v)) := by
  clear hau hav
  have h1 := calculate_one_direction_eq hcu
  have h2 := calculate_one_direction_eq hcv
  have hcode : calculate_final_score u v =
      .ok (round2 (max 0 (round2 (100 * (specS u v + specS v u) / 2) -
        specPenaltyAmended u v))) := by
    unfold calculate_final_score calculate_similarity
    rw [calculate_basic_penalty_eq]
    simp only [h1, h2, Except.bind, bind, pure, Except.pure]
  have hle : round2 (100 * (specS u v + specS v u) / 2) -
      specPenaltyAmended u v ≤ 100 := by
    have hs1 : specS u v ≤ 1 := specS_le_one hwu
    have hs2 : specS v u ≤ 1 := specS_le_one hwv
    have hb : 100 * (100 * (specS u v + specS v u) / 2) ≤ ((10000 : ℤ) : ℚ) := by
      push_cast
      linarith
    have hk := rhe_le_of_le hb
    have hr : round2 (100 * (specS u v + specS v u) / 2) ≤ 100 := by
      unfold round2
      have : (rhe (100 * (100 * (specS u v + specS v u) / 2)) : ℚ) ≤ 10000 := by
        exact_mod_cast hk
      linarith
    obtain ⟨m, hm⟩ := specPenaltyAmended_exists_nat u v
    have : (0 : ℚ) ≤ specPenaltyAmended u v := by
      rw [hm]; positivity
    linarith
  have hmin : min 100 (max 0 (round2 (100 * (specS u v + specS v u) / 2) -
      specPenaltyAmended u v)) =
      max 0 (round2 (100 * (specS u v + specS v u) / 2) - specPenaltyAmended u v) := by
    apply min_eq_right
    apply max_le <;> linarith
  constructor
  · rw [hcode]
    unfold specFinalScoreAmended
    rw [hmin]
  · intro hu0 hv0
    rw [hcode]
    unfold specFinalScore
    have hpen : specPenaltyAmended u v = specPenaltyClaim u v := by
      unfold specPenaltyAmended
      simp [hu0, hv0]
    rw [← hpen, hmin]

/-- Concrete `basic` record: male, building G, stay period 2, no flags,
no preferences. -/
def cexBasic : Basic :=
  { gender := "M", dorm_building := "G", stay_period := 2, is_smoker := false,
    has_fridge := false, has_router := false, mate_smoker := 0,
    mate_fridge := 0, mate_router := 0 }

/-- Entry holding a `mate_smoker = 1` (prefer smoker) preference. -/
def cexA : CalcUser :=
  { user_pk := 1, basic := { cexBasic with mate_smoker := 1 },
    survey := [("k", .num 3)], weights := [("k", 1)], priority := 0,
    registered_at := 0, edge_calculated := true }

/-- Entry identical to `cexA` except for the preference (a non-smoker). -/
def cexB : CalcUser :=
  { user_pk := 2, basic := cexBasic, survey := [("k", .num 3)],
    weights := [("k", 1)], priority := 0, registered_at := 0,
    edge_calculated := true }

/-- Claim C1 (counterexample).  `cexA`, `cexB` have identical complete
surveys (answer 3, weight 1), equal dorm building and stay period, and no
fridge/router preferences, so the claim's formula gives `100`; the source
additionally charges 5 points for `cexA`'s violated `mateSmoker`
preference and returns `95`. -/
theorem final_score_smoker_counterexample :
    calculate_final_score cexA cexB = .ok 95 ∧ specFinalScore cexA cexB = 100 ∧
      calculate_final_score cexA cexB ≠ .ok (specFinalScore cexA cexB) := by
  refine ⟨?_, ?_, ?_⟩
  · norm_num [calculate_final_score, calculate_similarity, calculate_one_direction,
      dirLoop, alookup, List.find?, calculate_basic_penalty,
      calculate_preference_penalty, PENALTY_SCORE, round2, rhe, cexA, cexB,
      cexBasic, Except.bind, pure, Except.pure, bind]
  · norm_num [specFinalScore, specS, specPenaltyClaim, numD, alookup,
      List.find?, round2, rhe, cexA, cexB, cexBasic]
  · norm_num [calculate_final_score, calculate_similarity, calculate_one_direction,
      dirLoop, alookup, List.find?, calculate_basic_penalty,
      calculate_preference_penalty, PENALTY_SCORE, specFinalScore, specS,
      specPenaltyClaim, numD, round2, rhe, cexA, cexB, cexBasic,
      Except.bind, pure, Except.pure, bind]

/-- Witness user for the C1 theorem (no preferences at all). -/
def wUser : CalcUser :=
  { user_pk := 3, basic := cexBasic, survey := [("k", .num 4)],
    weights := [("k", 1)], priority := 0, registered_at := 0,
    edge_calculated := true }

/-- Claim C1 (witness): the amended theorem applied at `cexB`, `wUser`. -/
theorem final_score_eq_spec_formula_witness :
    calculate_final_score cexB wUser = .ok (specFinalScoreAmended cexB wUser) ∧
    calculate_final_score cexB wUser = .ok (specFinalScore cexB wUser) := by
  have h := final_score_eq_spec_formula cexB wUser
    (by intro p hp; fin_cases hp; exact ⟨3, 4, rfl, rfl⟩)
    (by intro p hp; fin_cases hp; exact ⟨4, 3, rfl, rfl⟩)
    (by intro p hp; fin_cases hp; norm_num)
    (by intro p hp; fin_cases hp; norm_num)
    (by intro p hp q hq; fin_cases hp <;> simp at hq <;> rw [← hq] <;> norm_num)
    (by intro p hp q hq; fin_cases hp <;> simp at hq <;> rw [← hq] <;> norm_num)
  exact ⟨h.1, h.2 rfl rfl⟩

/-! ## Cache key constants and the edge record

An edge value is a JSON object; `Option` fields model key presence.  The
edge calculator's `save_edge` writes the keys `user_a_pk`/`user_b_pk`,
the scheduler reads the keys `user_a_id`/`user_b_id`. -/

def edgePrefixStr : String := "match:edge:"

def userQueuePrefixStr : String := "match:user-queue:"

/-- A cached edge object (`_key` is attached on read by the scheduler). -/
structure EdgeVal where
  key : String
  user_a_id : Option String
  user_b_id : Option String
  user_a_pk : Option ℕ
  user_b_pk : Option ℕ
  score : ℚ
  created_at : ℤ
deriving DecidableEq, Repr

/-- `save_edge`: key is `match:edge:<min_pk>:<max_pk>`; the stored object
has keys `user_a_pk`, `user_b_pk`, `score`, `created_at` (and no
`user_a_id`/`user_b_id`). -/
def save_edge (user_a user_b : CalcUser) (score : ℚ) (now : ℤ) : EdgeVal :=
  { key := edgePrefixStr ++ toString (min user_a.user_pk user_b.user_pk) ++ ":" ++
      toString (max user_a.user_pk user_b.user_pk),
    user_a_id := none, user_b_id := none,
    user_a_pk := some (min user_a.user_pk user_b.user_pk),
    user_b_pk := some (max user_a.user_pk user_b.user_pk),
    score := score, created_at := now }

/-- `mark_as_calculated`: re-read the fresh cached value under
`redis_key`, set only `edge_calculated`, write it back; no write when the
key is gone. -/
def mark_as_calculated (cache : List (String × CalcUser)) (redis_key : String) :
    List (String × CalcUser) :=
  match alookup cache redis_key with
  | none => cache
  | some fresh => cache.map (fun p =>
      if p.1 == redis_key then (p.1, { fresh with edge_calculated := true }) else p)

/-- The per-candidate loop of `process_new_user`: skip self and hard-filter
failures, otherwise score and save an edge; an exception carries the edges
already saved. -/
def process_new_user_loop (new_user : CalcUser) (now : ℤ) :
    List CalcUser → List EdgeVal → Except (String × List EdgeVal) (List EdgeVal)
  | [], acc => .ok acc.reverse
  | existing :: rest, acc =>
    if existing.user_pk == new_user.user_pk then
      process_new_user_loop new_user now rest acc
    else if check_hard_filter new_user existing = false then
      process_new_user_loop new_user now rest acc
    else
      match calculate_final_score new_user existing with
      | .error e => .error (e, acc.reverse)
      | .ok score =>
          process_new_user_loop new_user now rest
            (save_edge new_user existing score now :: acc)

/-- `process_new_user`: on success returns the saved edges and the marked
entry; an error propagates before `mark_as_calculated` runs, carrying the
edges already saved. -/
def process_new_user (new_user : CalcUser) (calculated_users : List CalcUser)
    (now : ℤ) : Except (String × List EdgeVal) (List EdgeVal × CalcUser) :=
  match process_new_user_loop new_user now calculated_users [] with
  | .error e => .error e
  | .ok edges => .ok (edges, { new_user with edge_calculated := true })

/-! ## Match scheduler -/

/-- A queue entry as read by the scheduler. -/
structure QueueUser where
  user_id : String
  property_id : ℕ
  survey_id : ℕ
  priority : ℤ
  registered_at : ℤ
deriving DecidableEq, Repr

/-- The loop of `cleanup_orphan_edges`: keep an edge iff both endpoint ids
are live, delete it otherwise; accessing a missing `user_a_id`/`user_b_id`
key raises `KeyError`, carrying the deletions already performed. -/
def cleanup_loop (valid_user_ids : List String) :
    List EdgeVal → List EdgeVal → List String →
      Except (String × List String) (List EdgeVal × List String)
  | [], kept, deleted => .ok (kept.reverse, deleted.reverse)
  | e :: rest, kept, deleted =>
    match e.user_a_id, e.user_b_id with
    | some id_a, some id_b =>
      if id_a ∈ valid_user_ids ∧ id_b ∈ valid_user_ids then
        cleanup_loop valid_user_ids rest (e :: kept) deleted
      else
        cleanup_loop valid_user_ids rest kept (e.key :: deleted)
    | none, _ => .error ("KeyError: user_a_id", deleted.reverse)
    | some _, none => .error ("KeyError: user_b_id", deleted.reverse)

/-- `cleanup_orphan_edges`: returns the surviving edges and the deleted
edge keys. -/
def cleanup_orphan_edges (edges : List EdgeVal) (valid_user_ids : List String) :
    Except (String × List String) (List EdgeVal × List String) :=
  cleanup_loop valid_user_ids edges [] []

/-- A candidate edge as used inside `find_matching_pairs`
(`_priority_sum` has been attached). -/
structure AEdge where
  user_a_id : String
  user_b_id : String
  score : ℚ
  priority_sum : ℤ
deriving DecidableEq, Repr

/-- `users.get(uid, {}).get('priority', 0)`. -/
def priorityOf (users : List (String × QueueUser)) (uid : String) : ℤ :=
  ((alookup users uid).map (·.priority)).getD 0

/-- The first loop of `find_matching_pairs`: admit edges with
`score >= threshold`, attaching `_priority_sum`. -/
def validEdgesLoop (users : List (String × QueueUser)) (threshold : ℚ) :
    List EdgeVal → Except String (List AEdge)
  | [] => .ok []
  | e :: rest =>
    match e.user_a_id, e.user_b_id with
    | some id_a, some id_b =>
      if threshold ≤ e.score then
        match validEdgesLoop users threshold rest with
        | .error msg => .error msg
        | .ok l =>
          .ok (AEdge.mk id_a id_b e.score
            (priorityOf users id_a + priorityOf users id_b) :: l)
      else validEdgesLoop users threshold rest
    | none, _ => .error "KeyError: user_a_id"
    | some _, none => .error "KeyError: user_b_id"

/-- The sort order of `find_matching_pairs`: `(priority_sum, score)`
descending; a stable sort under this order models Python's
`sort(key=..., reverse=True)`. -/
def keyLe (x y : AEdge) : Bool :=
  decide (y.priority_sum < x.priority_sum ∨
    (y.priority_sum = x.priority_sum ∧ y.score ≤ x.score))

/-- The greedy scan of `find_matching_pairs` over the sorted candidates. -/
def greedyLoop : List AEdge → List String → List AEdge
  | [], _ => []
  | e :: rest, matched_users =>
    if e.user_a_id ∉ matched_users ∧ e.user_b_id ∉ matched_users then
      e :: greedyLoop rest (e.user_a_id :: e.user_b_id :: matched_users)
    else
      greedyLoop rest matched_users

/-- `find_matching_pairs`: filter by threshold, sort by
`(priority_sum, score)` descending, greedy-scan. -/
def find_matching_pairs (edges : List EdgeVal) (users : List (String × QueueUser))
    (threshold : ℚ) : Except String (List AEdge) :=
  match validEdgesLoop users threshold edges with
  | .error msg => .error msg
  | .ok valid_edges =>
    if valid_edges.isEmpty then .ok []
    else .ok (greedyLoop (valid_edges.mergeSort keyLe) [])

/-- `increment_priorities`: add one to every cached entry's priority. -/
def increment_priorities (queue : List QueueUser) : List QueueUser :=
  queue.map (fun u => { u with priority := u.priority + 1 })

/-! ## Reference greedy selection (spec wording, for claim C2) -/

/-- An edge together with its priorities, as the spec's candidate list. -/
def annotEdge (users : List (String × QueueUser)) (e : EdgeVal) : AEdge :=
  { user_a_id := e.user_a_id.getD "", user_b_id := e.user_b_id.getD "",
    score := e.score,
    priority_sum := priorityOf users (e.user_a_id.getD "") +
      priorityOf users (e.user_b_id.getD "") }

/-- Spec: the candidate edges are those with `score ≥ threshold`. -/
def specCandidates (edges : List EdgeVal) (users : List (String × QueueUser))
    (threshold : ℚ) : List AEdge :=
  (edges.map (annotEdge users)).filter (fun ae => threshold ≤ ae.score)

/-- Spec: scan in sorted order, maintaining a `paired` set; include an
edge iff neither endpoint is already in `paired`, then add both. -/
def refGreedyScan : List AEdge → List String → List AEdge
  | [], _ => []
  | e :: rest, paired =>
    if e.user_a_id ∈ paired ∨ e.user_b_id ∈ paired then
      refGreedyScan rest paired
    else
      e :: refGreedyScan rest (e.user_a_id :: e.user_b_id :: paired)

/-- Spec: sort the candidates by `(priority sum, score)` descending and
run the one-pass greedy scan. -/
def refSelection (candidates : List AEdge) : List AEdge :=
  refGreedyScan (candidates.mergeSort keyLe) []

/-- Both endpoints of `p` differ from both endpoints of `q`. -/
def DisjointPair (p q : AEdge) : Prop :=
  p.user_a_id ≠ q.user_a_id ∧ p.user_a_id ≠ q.user_b_id ∧
  p.user_b_id ≠ q.user_a_id ∧ p.user_b_id ≠ q.user_b_id

lemma validEdgesLoop_eq_spec (users : List (String × QueueUser)) (θ : ℚ) :
    ∀ edges : List EdgeVal,
      (∀ e ∈ edges, e.user_a_id.isSome ∧ e.user_b_id.isSome) →
      validEdgesLoop users θ edges = .ok (specCandidates edges users θ) := by
  intro edges
  induction edges with
  | nil => intro _; simp [validEdgesLoop, specCandidates]
  | cons e rest ih =>
    intro h
    obtain ⟨ha, hb⟩ := h e (List.mem_cons_self _ _)
    obtain ⟨a, ha'⟩ := Option.isSome_iff_exists.mp ha
    obtain ⟨b, hb'⟩ := Option.isSome_iff_exists.mp hb
    have hrest := ih (fun e' he' => h e' (List.mem_cons_of_mem _ he'))
    simp only [validEdgesLoop, ha', hb', hrest]
    by_cases hs : θ ≤ e.score
    · simp [hs, specCandidates, annotEdge, ha', hb']
    · simp [hs, specCandidates, annotEdge, ha', hb']

lemma greedyLoop_eq_refGreedyScan :
    ∀ (l : List AEdge) (m : List String), greedyLoop l m = refGreedyScan l m := by
  intro l
  induction l with
  | nil => intro m; rfl
  | cons e rest ih =>
    intro m
    simp only [greedyLoop, refGreedyScan]
    by_cases hc : e.user_a_id ∈ m ∨ e.user_b_id ∈ m
    · rw [if_neg (by tauto), if_pos hc]
      exact ih m
    · rw [if_pos (show e.user_a_id ∉ m ∧ e.user_b_id ∉ m by tauto), if_neg hc, ih]

lemma greedyLoop_not_mem :
    ∀ (l : List AEdge) (m : List String) (p : AEdge), p ∈ greedyLoop l m →
      p.user_a_id ∉ m ∧ p.user_b_id ∉ m := by
  intro l
  induction l with
  | nil => intro m p hp; simp [greedyLoop] at hp
  | cons e rest ih =>
    intro m p hp
    simp only [greedyLoop] at hp
    split_ifs at hp with hc
    · rcases List.mem_cons.mp hp with rfl | hp'
      · exact hc
      · have := ih _ p hp'
        constructor
        · intro hm; exact this.1 (by simp [hm])
        · intro hm; exact this.2 (by simp [hm])
    · exact ih _ p hp

lemma greedyLoop_pairwise :
    ∀ (l : List AEdge) (m : List String), (greedyLoop l m).Pairwise DisjointPair := by
  intro l
  induction l with
  | nil => intro m; simp [greedyLoop]
  | cons e rest ih =>
    intro m
    simp only [greedyLoop]
    split_ifs with hc
    · refine List.Pairwise.cons ?_ (ih _)
      intro q hq
      have hq' := greedyLoop_not_mem _ _ _ hq
      have hqa : q.user_a_id ≠ e.user_a_id ∧ q.user_a_id ≠ e.user_b_id := by
        constructor <;> intro hh <;> exact hq'.1 (by simp [hh])
      have hqb : q.user_b_id ≠ e.user_a_id ∧ q.user_b_id ≠ e.user_b_id := by
        constructor <;> intro hh <;> exact hq'.2 (by simp [hh])
      exact ⟨Ne.symm hqa.1, Ne.symm hqb.1, Ne.symm hqa.2, Ne.symm hqb.2⟩
    · exact ih m

/-! ### Claim C2 -/

/-- Claim C2.  On edges carrying both endpoint ids, `find_matching_pairs` is
exactly the spec's reference selection: the candidates with
`score ≥ threshold`, sorted by `(priority_a + priority_b, score)`
descending, scanned once greedily; and no user id occurs in two selected
pairs. -/
theorem find_matching_pairs_eq_ref (edges : List EdgeVal)
    (users : List (String × QueueUser)) (threshold : ℚ)
    (h : ∀ e ∈ edges, e.user_a_id.isSome ∧ e.user_b_id.isSome) :
    find_matching_pairs edges users threshold =
      .ok (refSelection (specCandidates edges users threshold)) ∧
    ∀ res, find_matching_pairs edges users threshold = .ok res →
      res.Pairwise DisjointPair := by
  have hv := validEdgesLoop_eq_spec users threshold edges h
  have hmain : find_matching_pairs edges users threshold =
      .ok (refSelection (specCandidates edges users threshold)) := by
    unfold find_matching_pairs
    rw [hv]
    dsimp only
    by_cases he : (specCandidates edges users threshold).isEmpty
    · rw [if_pos he]
      unfold refSelection
      rw [List.isEmpty_iff.mp he]
      simp [refGreedyScan]
    · rw [if_neg he]
      unfold refSelection
      rw [greedyLoop_eq_refGreedyScan]
  refine ⟨hmain, ?_⟩
  intro res hres
  rw [hmain] at hres
  obtain rfl := (Except.ok.injEq _ _).mp hres.symm
  unfold refSelection
  rw [← greedyLoop_eq_refGreedyScan]
  exact greedyLoop_pairwise _ _

/-- Witness queue user. -/
def wQueueUser (i : String) (p : ℤ) : QueueUser :=
  { user_id := i, property_id := 1, survey_id := 2, priority := p,
    registered_at := 0 }

/-- Witness users snapshot `A, B, C`, all priority `0`. -/
def wUsersABC : List (String × QueueUser) :=
  [("A", wQueueUser "A" 0), ("B", wQueueUser "B" 0), ("C", wQueueUser "C" 0)]

/-- Scheduler-format edge between `A` and `B`, score `90`. -/
def wEdgeAB : EdgeVal :=
  { key := "match:edge:A:B", user_a_id := some "A", user_b_id := some "B",
    user_a_pk := none, user_b_pk := none, score := 90, created_at := 0 }

/-- Scheduler-format edge between `A` and `C`, score `90`. -/
def wEdgeAC : EdgeVal :=
  { key := "match:edge:A:C", user_a_id := some "A", user_b_id := some "C",
    user_a_pk := none, user_b_pk := none, score := 90, created_at := 0 }

/-- Claim C2 (witness): the theorem applied to the snapshot
`{A, B, C}` with the single edge `A–B`. -/
theorem find_matching_pairs_eq_ref_witness :
    find_matching_pairs [wEdgeAB] wUsersABC 80 =
      .ok (refSelection (specCandidates [wEdgeAB] wUsersABC 80)) ∧
    ∀ res, find_matching_pairs [wEdgeAB] wUsersABC 80 = .ok res →
      res.Pairwise DisjointPair :=
  find_matching_pairs_eq_ref [wEdgeAB] wUsersABC 80
    (by intro e he; fin_cases he; simp [wEdgeAB])

/-! ### Claim C6 -/

/-- The sort key used by the scheduler. -/
def sortKey (ae : AEdge) : ℤ × ℚ := (ae.priority_sum, ae.score)

lemma keyLe_trans : ∀ a b c : AEdge, keyLe a b → keyLe b c → keyLe a c := by
  intro a b c hab hbc
  simp only [keyLe, decide_eq_true_eq] at *
  rcases hab with h1 | ⟨h1, h1'⟩ <;> rcases hbc with h2 | ⟨h2, h2'⟩
  · exact Or.inl (h2.trans h1)
  · exact Or.inl (by omega)
  · exact Or.inl (by omega)
  · exact Or.inr ⟨by omega, h2'.trans h1'⟩

lemma keyLe_total : ∀ a b : AEdge, keyLe a b || keyLe b a := by
  intro a b
  simp only [keyLe, Bool.or_eq_true, decide_eq_true_eq]
  rcases lt_trichotomy a.priority_sum b.priority_sum with h | h | h
  · exact Or.inr (Or.inl h)
  · rcases le_total a.score b.score with hs | hs
    · exact Or.inr (Or.inr ⟨h, hs⟩)
    · exact Or.inl (Or.inr ⟨h.symm, hs⟩)
  · exact Or.inl (Or.inl h)

lemma keyLe_antisymm_key {a b : AEdge} (h1 : keyLe a b) (h2 : keyLe b a) :
    sortKey a = sortKey b := by
  simp only [keyLe, decide_eq_true_eq] at h1 h2
  rcases h1 with h1 | ⟨h1, h1'⟩ <;> rcases h2 with h2 | ⟨h2, h2'⟩
  · exfalso; omega
  · exfalso; omega
  · exfalso; omega
  · simp only [sortKey, Prod.mk.injEq]
    exact ⟨by omega, le_antisymm h2' h1'⟩

/-- Two sorted lists that are permutations of each other and whose sort
keys are pairwise distinct are equal. -/
lemma sorted_perm_nodup_eq :
    ∀ (s1 s2 : List AEdge), s1.Perm s2 →
      s1.Pairwise (fun a b => keyLe a b) → s2.Pairwise (fun a b => keyLe a b) →
      (s1.map sortKey).Nodup → s1 = s2 := by
  intro s1
  induction s1 with
  | nil => intro s2 hp _ _ _; exact hp.nil_eq
  | cons x t1 ih =>
    intro s2 hp hs1 hs2 hnd
    match s2, hp with
    | [], hp => exact absurd hp.symm.nil_eq (by simp)
    | y :: t2, hp =>
      by_cases hxy : x = y
      · subst hxy
        have ht := hp.cons_inv
        rw [ih t2 ht (List.Pairwise.of_cons hs1) (List.Pairwise.of_cons hs2)
          (by simpa using (List.nodup_cons.mp (by simpa using hnd)).2)]
      · exfalso
        have hx2 : x ∈ y :: t2 := hp.subset (List.mem_cons_self _ _)
        have hxt2 : x ∈ t2 := by
          rcases List.mem_cons.mp hx2 with h | h
          · exact absurd h hxy
          · exact h
        have hy1 : y ∈ x :: t1 := hp.symm.subset (List.mem_cons_self _ _)
        have hyt1 : y ∈ t1 := by
          rcases List.mem_cons.mp hy1 with h | h
          · exact absurd h.symm hxy
          · exact h
        have hxy1 : keyLe x y := List.rel_of_pairwise_cons hs1 hyt1
        have hyx : keyLe y x := List.rel_of_pairwise_cons hs2 hxt2
        have hkey : sortKey x = sortKey y := keyLe_antisymm_key hxy1 hyx
        exact hxy (List.inj_on_of_nodup_map hnd (List.mem_cons_self _ _)
          (List.mem_cons_of_mem _ hyt1) hkey)

/-- Claim C6 (amended).  On the same snapshot (a permutation of the same
edges, all well-formed), `find_matching_pairs` yields the same pairing
set provided no two candidate edges tie on `(priority sum, score)`; with
ties the result follows enumeration order (the stable sort has no
canonical tie-breaker). -/
theorem find_matching_pairs_order_independent (edges1 edges2 : List EdgeVal)
    (users : List (String × QueueUser)) (threshold : ℚ)
    (hperm : edges1.Perm edges2)
    (h1 : ∀ e ∈ edges1, e.user_a_id.isSome ∧ e.user_b_id.isSome)
    (hnd : ((specCandidates edges1 users threshold).map sortKey).Nodup) :
    find_matching_pairs edges1 users threshold =
      find_matching_pairs edges2 users threshold := by
  have h2 : ∀ e ∈ edges2, e.user_a_id.isSome ∧ e.user_b_id.isSome :=
    fun e he => h1 e (hperm.mem_iff.mpr he)
  have hcp : (specCandidates edges1 users threshold).Perm
      (specCandidates edges2 users threshold) :=
    (hperm.map (annotEdge users)).filter _
  unfold find_matching_pairs
  rw [validEdgesLoop_eq_spec users threshold edges1 h1,
    validEdgesLoop_eq_spec users threshold edges2 h2]
  dsimp only
  have hemp : (specCandidates edges1 users threshold).isEmpty =
      (specCandidates edges2 users threshold).isEmpty := by
    have hlen := hcp.length_eq
    rcases h1 : specCandidates edges1 users threshold with _ | ⟨c, cs⟩ <;>
      rcases h2 : specCandidates edges2 users threshold with _ | ⟨d, ds⟩ <;>
      rw [h1, h2] at hlen <;> simp_all
  by_cases he : (specCandidates edges1 users threshold).isEmpty
  · rw [if_pos he, if_pos (hemp ▸ he)]
  · rw [if_neg he, if_neg (hemp ▸ he)]
    have hsorteq : (specCandidates edges1 users threshold).mergeSort keyLe =
        (specCandidates edges2 users threshold).mergeSort keyLe := by
      apply sorted_perm_nodup_eq
      · exact ((List.mergeSort_perm _ _).trans hcp).trans
          (List.mergeSort_perm _ _).symm
      · exact List.sorted_mergeSort keyLe_trans (fun a b => keyLe_total a b) _
      · exact List.sorted_mergeSort keyLe_trans (fun a b => keyLe_total a b) _
      · exact (((List.mergeSort_perm _ keyLe).map sortKey).nodup_iff).mpr hnd
    rw [hsorteq]

/-- Edge `A–C` with the distinct score `85` (so keys cannot tie). -/
def wEdgeAC85 : EdgeVal :=
  { key := "match:edge:A:C", user_a_id := some "A", user_b_id := some "C",
    user_a_pk := none, user_b_pk := none, score := 85, created_at := 0 }

/-- Claim C6 (witness): the amended theorem applied to the two enumeration
orders of the tie-free snapshot `{A–B @90, A–C @85}`. -/
theorem find_matching_pairs_order_independent_witness :
    find_matching_pairs [wEdgeAB, wEdgeAC85] wUsersABC 80 =
      find_matching_pairs [wEdgeAC85, wEdgeAB] wUsersABC 80 :=
  find_matching_pairs_order_independent [wEdgeAB, wEdgeAC85]
    [wEdgeAC85, wEdgeAB] wUsersABC 80 (List.Perm.swap _ _ _)
    (by intro e he; fin_cases he <;> simp [wEdgeAB, wEdgeAC85])
    (by
      rw [show specCandidates [wEdgeAB, wEdgeAC85] wUsersABC 80 =
          [AEdge.mk "A" "B" 90 0, AEdge.mk "A" "C" 85 0] from by
        norm_num [specCandidates, annotEdge, priorityOf, alookup, List.find?,
          wEdgeAB, wEdgeAC85, wUsersABC, wQueueUser]
        exact ⟨rfl, rfl⟩]
      norm_num [sortKey])

/-- Claim C6 (counterexample).  The same snapshot `{A–B @90, A–C @90}` (a
tie on `(priority sum, score)`), enumerated in two orders, produces two
different pairing sets: the stable sort keeps enumeration order and the
greedy scan takes the first edge, so no canonical `(userA, userB)`
tie-break exists in the code. -/
theorem find_matching_pairs_tie_counterexample :
    find_matching_pairs [wEdgeAB, wEdgeAC] wUsersABC 80 =
      .ok [AEdge.mk "A" "B" 90 0] ∧
    find_matching_pairs [wEdgeAC, wEdgeAB] wUsersABC 80 =
      .ok [AEdge.mk "A" "C" 90 0] ∧
    find_matching_pairs [wEdgeAB, wEdgeAC] wUsersABC 80 ≠
      find_matching_pairs [wEdgeAC, wEdgeAB] wUsersABC 80 := by
  have hab : find_matching_pairs [wEdgeAB, wEdgeAC] wUsersABC 80 =
      .ok [AEdge.mk "A" "B" 90 0] := by
    unfold find_matching_pairs
    rw [show validEdgesLoop wUsersABC 80 [wEdgeAB, wEdgeAC] =
        .ok [AEdge.mk "A" "B" 90 0, AEdge.mk "A" "C" 90 0] from by
      norm_num [validEdgesLoop, priorityOf, alookup, List.find?, wEdgeAB,
        wEdgeAC, wUsersABC, wQueueUser]
      exact ⟨rfl, rfl⟩]
    dsimp only
    rw [if_neg (by simp)]
    rw [List.mergeSort_of_sorted (by simp [keyLe])]
    simp [greedyLoop]
  have hac : find_matching_pairs [wEdgeAC, wEdgeAB] wUsersABC 80 =
      .ok [AEdge.mk "A" "C" 90 0] := by
    unfold find_matching_pairs
    rw [show validEdgesLoop wUsersABC 80 [wEdgeAC, wEdgeAB] =
        .ok [AEdge.mk "A" "C" 90 0, AEdge.mk "A" "B" 90 0] from by
      norm_num [validEdgesLoop, priorityOf, alookup, List.find?, wEdgeAB,
        wEdgeAC, wUsersABC, wQueueUser]
      exact ⟨rfl, rfl⟩]
    dsimp only
    rw [if_neg (by simp)]
    rw [List.mergeSort_of_sorted (by simp [keyLe])]
    simp [greedyLoop]
  refine ⟨hab, hac, ?_⟩
  rw [hab, hac]
  simp

/-! ### Claim C7 -/

/-- Edge `A–B` with score `70` (below the default threshold `80`). -/
def wEdgeAB70 : EdgeVal :=
  { key := "match:edge:A:B", user_a_id := some "A", user_b_id := some "B",
    user_a_pk := none, user_b_pk := none, score := 70, created_at := 0 }

/-- Snapshot of `A` and `B` with given priorities. -/
def wUsersPrio (pa pb : ℤ) : List (String × QueueUser) :=
  [("A", wQueueUser "A" pa), ("B", wQueueUser "B" pb)]

lemma increment_priorities_iterate (n : ℕ) (l : List QueueUser) :
    increment_priorities^[n] l =
      l.map (fun u => { u with priority := u.priority + (n : ℤ) }) := by
  induction n with
  | zero =>
    simp only [Function.iterate_zero, id_eq, Nat.cast_zero, add_zero]
    rw [show (fun u : QueueUser => { u with priority := u.priority }) = id from rfl]
    rw [List.map_id]
  | succ n ih =>
    rw [Function.iterate_succ_apply', ih]
    unfold increment_priorities
    rw [List.map_map]
    apply List.map_congr_left
    intro u _
    simp only [Function.comp_apply]
    congr 1
    push_cast
    ring

/-- Claim C7 (amended).  After 20 scheduler cycles the priorities of `A` and
`B` have aged from `0` to `20`, but whatever the priorities are, the
sub-threshold edge (`score 70 < threshold 80`) is never admitted to the
greedy step: the code has no `priorityBypass`, so the pair is never
committed. -/
theorem aging_never_admits_subthreshold (pa pb : ℤ) :
    (increment_priorities^[20] [wQueueUser "A" 0, wQueueUser "B" 0]).map
        (fun u => u.priority) = [20, 20] ∧
    find_matching_pairs [wEdgeAB70] (wUsersPrio pa pb) 80 = .ok [] := by
  constructor
  · rw [increment_priorities_iterate]
    norm_num [wQueueUser]
  · unfold find_matching_pairs
    rw [show validEdgesLoop (wUsersPrio pa pb) 80 [wEdgeAB70] = .ok [] from by
      norm_num [validEdgesLoop, wEdgeAB70]]
    rfl

/-- Claim C7 (counterexample).  Even on cycle 20, with both priorities at
`20`, the edge with score `70` is not admitted: the selection is empty, so
no match is ever committed for it (the claim's "admitted and committed on
cycle 20" is false of the code). -/
theorem aging_bypass_counterexample :
    (increment_priorities^[20] [wQueueUser "A" 0, wQueueUser "B" 0]).map
        (fun u => u.priority) = [20, 20] ∧
    find_matching_pairs [wEdgeAB70] (wUsersPrio 20 20) 80 = .ok [] := by
  constructor
  · rw [increment_priorities_iterate]
    norm_num [wQueueUser]
  · unfold find_matching_pairs
    rw [show validEdgesLoop (wUsersPrio 20 20) 80 [wEdgeAB70] = .ok [] from by
      norm_num [validEdgesLoop, wEdgeAB70]]
    rfl

/-! ### Claim C5 -/

/-- Calculator-side queue entry with primary key `pk` (identical profiles,
so every pair passes the hard filter). -/
def calcU (pk : ℕ) : CalcUser :=
  { user_pk := pk, basic := cexBasic, survey := [("k", .num 3)],
    weights := [("k", 1)], priority := 0, registered_at := 0,
    edge_calculated := true }

/-- Claim C5 (code bug).  On the orphan-reclamation scenario — queue
`{A, B, C}` with `C` deleted, edges `AB`, `AC`, `BC` in the format
`save_edge` actually writes — `cleanup_orphan_edges` raises `KeyError`
on the very first edge (the calculator writes `user_a_pk`/`user_b_pk`,
the scheduler reads `user_a_id`/`user_b_id`), so the cycle aborts with no
edge deleted and no edge kept, instead of deleting `AC`, `BC` and keeping
`AB`. -/
theorem orphan_cleanup_keyerror_on_saved_edges :
    (save_edge (calcU 1) (calcU 2) 95 0).user_a_id = none ∧
    cleanup_orphan_edges
        [save_edge (calcU 1) (calcU 2) 95 0,
         save_edge (calcU 1) (calcU 3) 95 0,
         save_edge (calcU 2) (calcU 3) 95 0] ["A", "B"] =
      .error ("KeyError: user_a_id", []) := by
  constructor
  · rfl
  · rfl

/-! ## DB commit models (claims C3, C4)

`process_matched_pairs` and `remove_expired_users` talk to MySQL and
Redis.  The embedding makes the effects explicit: the list of SQL
statements executed inside the transaction, whether the single
`conn.commit()` succeeded, the queue keys deleted from the cache, and the
returned `removed_users` set.  Statement failures (the `except` blocks of
the source) are injected through failure oracles. -/

/-- `uuid.UUID(s).hex` on a canonical UUID string: lowercase, hyphens
removed. -/
def normalize_uuid (s : String) : String :=
  ((s.data.filter (fun c => c ≠ '-')).map Char.toLower).asString

/-- An SQL statement of the scheduler's transaction. -/
inductive DbStmt where
  | insertHistory (user_a user_b : String) (prop_a prop_b surv_a surv_b : ℕ)
      (score : ℚ)
  | updateStatus (prop_a prop_b : ℕ) (status : ℕ)
deriving DecidableEq, Repr

/-- Result of one `process_matched_pairs` run. -/
structure PMPResult where
  txn : List DbStmt
  committed : Bool
  cache_deleted : List String
  removed_users : List String
deriving DecidableEq, Repr

/-- Per-pair loop of `process_matched_pairs`.  A failing INSERT skips the
rest of the pair's block (`except: continue`); a failing UPDATE likewise,
but the already-executed INSERT stays in the transaction; only a fully
successful pair reaches the two `r.delete` calls. -/
def pmpLoop (users : List (String × QueueUser))
    (failIns failUpd : String → String → Bool) :
    List AEdge → List DbStmt × List String × List String
  | [] => ([], [], [])
  | e :: rest =>
    match alookup users e.user_a_id, alookup users e.user_b_id with
    | some user_a, some user_b =>
      if failIns e.user_a_id e.user_b_id then
        pmpLoop users failIns failUpd rest
      else
        if failUpd e.user_a_id e.user_b_id then
          match pmpLoop users failIns failUpd rest with
          | (txn, dels, rem) =>
            (DbStmt.insertHistory (normalize_uuid user_a.user_id)
                (normalize_uuid user_b.user_id) user_a.property_id
                user_b.property_id user_a.survey_id user_b.survey_id e.score ::
              txn, dels, rem)
        else
          match pmpLoop users failIns failUpd rest with
          | (txn, dels, rem) =>
            (DbStmt.insertHistory (normalize_uuid user_a.user_id)
                (normalize_uuid user_b.user_id) user_a.property_id
                user_b.property_id user_a.survey_id user_b.survey_id e.score ::
              DbStmt.updateStatus user_a.property_id user_b.property_id 2 :: txn,
             (userQueuePrefixStr ++ e.user_a_id) ::
              (userQueuePrefixStr ++ e.user_b_id) :: dels,
             e.user_a_id :: e.user_b_id :: rem)
    | _, _ => pmpLoop users failIns failUpd rest

/-- `process_matched_pairs`: one transaction, one `conn.commit()` at the
end of the loop; cache deletions happen inside the loop, before the
commit. -/
def process_matched_pairs (pairs : List AEdge)
    (users : List (String × QueueUser))
    (failIns failUpd : String → String → Bool) (failCommit : Bool) : PMPResult :=
  match pmpLoop users failIns failUpd pairs with
  | (txn, dels, rem) =>
    { txn := txn, committed := !failCommit, cache_deleted := dels,
      removed_users := rem }

/-- The statements durably applied: the whole transaction if the commit
succeeded, nothing if it failed (the connection is closed, rolling back). -/
def db_applied (r : PMPResult) : List DbStmt :=
  if r.committed then r.txn else []

/-- Result of one `remove_expired_users` run. -/
structure RexpResult where
  expired : List QueueUser
  cache_deleted : List String
  transitions : List (ℕ × ℕ)
deriving DecidableEq, Repr

/-- `remove_expired_users`: every entry older than 24 h is deleted from
the cache first; then one batch `UPDATE … SET match_status = 9` runs and
is committed — or rolled back entirely when the DB fails
(`except: conn.rollback()`), leaving the cache deletions in place.
(When no entry expired, no DB statement runs.) -/
def remove_expired_users (queue : List QueueUser) (now : ℤ) (dbFail : Bool) :
    RexpResult :=
  { expired := queue.filter (fun u => 86400 < now - u.registered_at),
    cache_deleted := (queue.filter (fun u => 86400 < now - u.registered_at)).map
      (fun u => userQueuePrefixStr ++ u.user_id),
    transitions :=
      if (queue.filter (fun u => 86400 < now - u.registered_at)).isEmpty ∨ dbFail
      then []
      else (queue.filter (fun u => 86400 < now - u.registered_at)).map
        (fun u => (u.property_id, 9)) }

/-- The INSERT a pair produces (under the presence hypotheses). -/
def insStmtOf (users : List (String × QueueUser)) (e : AEdge) : DbStmt :=
  match alookup users e.user_a_id, alookup users e.user_b_id with
  | some a, some b =>
    .insertHistory (normalize_uuid a.user_id) (normalize_uuid b.user_id)
      a.property_id b.property_id a.survey_id b.survey_id e.score
  | _, _ => .updateStatus 0 0 0

/-- The UPDATE a pair produces (under the presence hypotheses). -/
def updStmtOf (users : List (String × QueueUser)) (e : AEdge) : DbStmt :=
  match alookup users e.user_a_id, alookup users e.user_b_id with
  | some a, some b => .updateStatus a.property_id b.property_id 2
  | _, _ => .updateStatus 0 0 0

lemma pmpLoop_no_failures (users : List (String × QueueUser)) :
    ∀ pairs : List AEdge,
      (∀ e ∈ pairs, (alookup users e.user_a_id).isSome ∧
        (alookup users e.user_b_id).isSome) →
      pmpLoop users (fun _ _ => false) (fun _ _ => false) pairs =
        (pairs.bind (fun e => [insStmtOf users e, updStmtOf users e]),
         pairs.bind (fun e => [userQueuePrefixStr ++ e.user_a_id,
           userQueuePrefixStr ++ e.user_b_id]),
         pairs.bind (fun e => [e.user_a_id, e.user_b_id])) := by
  intro pairs
  induction pairs with
  | nil => intro _; simp [pmpLoop]
  | cons e rest ih =>
    intro h
    obtain ⟨ha, hb⟩ := h e (List.mem_cons_self _ _)
    obtain ⟨a, ha'⟩ := Option.isSome_iff_exists.mp ha
    obtain ⟨b, hb'⟩ := Option.isSome_iff_exists.mp hb
    simp only [pmpLoop, ha', hb', if_neg Bool.false_ne_true,
      ih (fun e' he' => h e' (List.mem_cons_of_mem _ he'))]
    simp [insStmtOf, updStmtOf, ha', hb']

/-! ### Claim C3 -/

/-- Claim C3 (amended).  When the DB statements succeed, every entry the
scheduler removes gets its transition: every expired entry's property row
is updated to status 9 exactly once and its queue key deleted, and every
selected pair contributes exactly one history INSERT plus one status-2
UPDATE to the committed batch, with both queue keys deleted.  (The
counterexample shows the coupling is not transactional: a DB failure
after the cache deletion loses the transition.) -/
theorem removed_entry_has_transition
    (queue : List QueueUser) (now : ℤ)
    (pairs : List AEdge) (users : List (String × QueueUser))
    (hnd : (queue.map (fun u => u.property_id)).Nodup)
    (hpres : ∀ e ∈ pairs, (alookup users e.user_a_id).isSome ∧
      (alookup users e.user_b_id).isSome) :
    ((remove_expired_users queue now false).cache_deleted =
      (remove_expired_users queue now false).expired.map
        (fun u => userQueuePrefixStr ++ u.user_id)) ∧
    ((remove_expired_users queue now false).transitions.Nodup ∧
     ∀ u ∈ (remove_expired_users queue now false).expired,
       (u.property_id, 9) ∈ (remove_expired_users queue now false).transitions) ∧
    (db_applied (process_matched_pairs pairs users
        (fun _ _ => false) (fun _ _ => false) false) =
      pairs.bind (fun e => [insStmtOf users e, updStmtOf users e])) ∧
    ((process_matched_pairs pairs users
        (fun _ _ => false) (fun _ _ => false) false).cache_deleted =
      pairs.bind (fun e => [userQueuePrefixStr ++ e.user_a_id,
        userQueuePrefixStr ++ e.user_b_id])) := by
  have hndf : ((queue.filter (fun u => decide (86400 < now - u.registered_at))).map
      (fun u => u.property_id)).Nodup :=
    hnd.sublist ((List.filter_sublist queue).map _)
  have hndp : ((queue.filter (fun u => decide (86400 < now - u.registered_at))).map
      (fun u => (u.property_id, 9))).Nodup := by
    rw [show (fun u : QueueUser => (u.property_id, 9)) =
        ((fun p => (p, 9)) ∘ fun u : QueueUser => u.property_id) from rfl,
      ← List.map_map]
    exact hndf.map (fun p q hpq => by simpa using hpq)
  refine ⟨rfl, ⟨?_, ?_⟩, ?_, ?_⟩
  · simp only [remove_expired_users]
    by_cases h : (queue.filter
        (fun u => decide (86400 < now - u.registered_at))).isEmpty = true
    · rw [if_pos (Or.inl h)]
      exact List.nodup_nil
    · rw [if_neg (by simp [h])]
      exact hndp
  · intro u hu
    simp only [remove_expired_users] at hu ⊢
    have hne : ¬((queue.filter
        (fun u => decide (86400 < now - u.registered_at))).isEmpty = true ∨ False) := by
      simp only [or_false]
      intro hemp
      rw [List.isEmpty_iff.mp hemp] at hu
      simp at hu
    rw [if_neg (by simpa using hne)]
    exact List.mem_map_of_mem _ hu
  · have hp := pmpLoop_no_failures users pairs hpres
    simp [process_matched_pairs, hp, db_applied]
  · have hp := pmpLoop_no_failures users pairs hpres
    simp [process_matched_pairs, hp]

/-- Expired queue entry `X`. -/
def c3qX : QueueUser :=
  { user_id := "X", property_id := 7, survey_id := 8, priority := 0,
    registered_at := 0 }

/-- Claim C3 (counterexample).  Entry `X` (25+ hours old) is deleted from
the queue; the status-9 UPDATE fails and is rolled back: the entry is
gone with no relational-store transition at all — the eviction and the
transition are not in one transaction. -/
theorem expired_eviction_lost_on_db_failure :
    (remove_expired_users [c3qX] 100000 true).cache_deleted =
      ["match:user-queue:X"] ∧
    (remove_expired_users [c3qX] 100000 true).expired = [c3qX] ∧
    (remove_expired_users [c3qX] 100000 true).transitions = [] := by
  refine ⟨rfl, rfl, rfl⟩

/-- Queue user `x` (property 1). -/
def c4ux : QueueUser :=
  { user_id := "x", property_id := 1, survey_id := 11, priority := 0,
    registered_at := 0 }

/-- Queue user `y` (property 2). -/
def c4uy : QueueUser :=
  { user_id := "y", property_id := 2, survey_id := 12, priority := 0,
    registered_at := 0 }

/-- Users snapshot for the commit claims. -/
def c4users : List (String × QueueUser) := [("x", c4ux), ("y", c4uy)]

/-- The selected pair `x–y` with score 85. -/
def c4pair : AEdge := AEdge.mk "x" "y" 85 0

/-! ### Claim C4 -/

lemma DisjointPair.symm' {p q : AEdge} (h : DisjointPair p q) : DisjointPair q p := by
  unfold DisjointPair at *
  tauto

lemma process_matched_pairs_eq (pairs : List AEdge)
    (users : List (String × QueueUser)) (fI fU : String → String → Bool)
    (fc : Bool) :
    process_matched_pairs pairs users fI fU fc =
      { txn := (pmpLoop users fI fU pairs).1, committed := !fc,
        cache_deleted := (pmpLoop users fI fU pairs).2.1,
        removed_users := (pmpLoop users fI fU pairs).2.2 } := by
  unfold process_matched_pairs
  rcases pmpLoop users fI fU pairs with ⟨t, d, r⟩
  rfl

/-- Any id in `removed_users` comes from a pair whose INSERT and UPDATE
both succeeded. -/
lemma pmpLoop_removed_mem (users : List (String × QueueUser))
    (fI fU : String → String → Bool) :
    ∀ (pairs : List AEdge) (x : String), x ∈ (pmpLoop users fI fU pairs).2.2 →
      ∃ e ∈ pairs, (x = e.user_a_id ∨ x = e.user_b_id) ∧
        fI e.user_a_id e.user_b_id = false ∧ fU e.user_a_id e.user_b_id = false := by
  intro pairs
  induction pairs with
  | nil => intro x hx; simp [pmpLoop] at hx
  | cons f rest ih =>
    intro x hx
    have step : ∀ hx' : x ∈ (pmpLoop users fI fU rest).2.2, _ := fun hx' => ih x hx'
    rcases ha : alookup users f.user_a_id with _ | a
    · rw [show pmpLoop users fI fU (f :: rest) = pmpLoop users fI fU rest from by
        simp only [pmpLoop, ha]] at hx
      obtain ⟨e, he, hrest⟩ := ih x hx
      exact ⟨e, List.mem_cons_of_mem _ he, hrest⟩
    · rcases hb : alookup users f.user_b_id with _ | b
      · rw [show pmpLoop users fI fU (f :: rest) = pmpLoop users fI fU rest from by
          simp only [pmpLoop, ha, hb]] at hx
        obtain ⟨e, he, hrest⟩ := ih x hx
        exact ⟨e, List.mem_cons_of_mem _ he, hrest⟩
      · by_cases hfi : fI f.user_a_id f.user_b_id = true
        · rw [show pmpLoop users fI fU (f :: rest) = pmpLoop users fI fU rest from by
            simp [pmpLoop, ha, hb, hfi]] at hx
          obtain ⟨e, he, hrest⟩ := ih x hx
          exact ⟨e, List.mem_cons_of_mem _ he, hrest⟩
        · rcases hrec : pmpLoop users fI fU rest with ⟨t, d, r⟩
          by_cases hfu : fU f.user_a_id f.user_b_id = true
          · rw [show pmpLoop users fI fU (f :: rest) =
                (DbStmt.insertHistory (normalize_uuid a.user_id)
                  (normalize_uuid b.user_id) a.property_id b.property_id
                  a.survey_id b.survey_id f.score :: t, d, r) from by
              simp [pmpLoop, ha, hb, hfi, hfu, hrec]] at hx
            simp only at hx
            obtain ⟨e, he, hrest⟩ := ih x (by rw [hrec]; exact hx)
            exact ⟨e, List.mem_cons_of_mem _ he, hrest⟩
          · rw [show pmpLoop users fI fU (f :: rest) =
                (DbStmt.insertHistory (normalize_uuid a.user_id)
                  (normalize_uuid b.user_id) a.property_id b.property_id
                  a.survey_id b.survey_id f.score ::
                  DbStmt.updateStatus a.property_id b.property_id 2 :: t,
                 (userQueuePrefixStr ++ f.user_a_id) ::
                  (userQueuePrefixStr ++ f.user_b_id) :: d,
                 f.user_a_id :: f.user_b_id :: r) from by
              simp [pmpLoop, ha, hb, hfi, hfu, hrec]] at hx
            simp only [List.mem_cons] at hx
            rcases hx with rfl | rfl | hx
            · exact ⟨f, List.mem_cons_self _ _,
                Or.inl rfl, by simpa using hfi, by simpa using hfu⟩
            · exact ⟨f, List.mem_cons_self _ _,
                Or.inr rfl, by simpa using hfi, by simpa using hfu⟩
            · obtain ⟨e, he, hrest⟩ := ih x (by rw [hrec]; exact hx)
              exact ⟨e, List.mem_cons_of_mem _ he, hrest⟩

/-- A pair whose INSERT succeeds leaves its INSERT in the transaction; if
its UPDATE also succeeds, the UPDATE is in the transaction and both its
ids are in `removed_users`. -/
lemma pmpLoop_success_mem (users : List (String × QueueUser))
    (fI fU : String → String → Bool) :
    ∀ (pairs : List AEdge) (e : AEdge), e ∈ pairs →
      (alookup users e.user_a_id).isSome →
      (alookup users e.user_b_id).isSome →
      fI e.user_a_id e.user_b_id = false →
      insStmtOf users e ∈ (pmpLoop users fI fU pairs).1 ∧
      (fU e.user_a_id e.user_b_id = false →
        updStmtOf users e ∈ (pmpLoop users fI fU pairs).1 ∧
        e.user_a_id ∈ (pmpLoop users fI fU pairs).2.2 ∧
        e.user_b_id ∈ (pmpLoop users fI fU pairs).2.2) := by
  intro pairs
  induction pairs with
  | nil => intro e he; simp at he
  | cons f rest ih =>
    intro e he hea heb hefi
    rcases List.mem_cons.mp he with rfl | he'
    · obtain ⟨a, ha⟩ := Option.isSome_iff_exists.mp hea
      obtain ⟨b, hb⟩ := Option.isSome_iff_exists.mp heb
      rcases hrec : pmpLoop users fI fU rest with ⟨t, d, r⟩
      by_cases hfu : fU e.user_a_id e.user_b_id = true
      · rw [show pmpLoop users fI fU (e :: rest) =
            (DbStmt.insertHistory (normalize_uuid a.user_id)
              (normalize_uuid b.user_id) a.property_id b.property_id
              a.survey_id b.survey_id e.score :: t, d, r) from by
          simp [pmpLoop, ha, hb, hefi, hfu, hrec]]
        constructor
        · simp [insStmtOf, ha, hb]
        · intro hfu'
          rw [hfu'] at hfu
          simp at hfu
      · rw [show pmpLoop users fI fU (e :: rest) =
            (DbStmt.insertHistory (normalize_uuid a.user_id)
              (normalize_uuid b.user_id) a.property_id b.property_id
              a.survey_id b.survey_id e.score ::
              DbStmt.updateStatus a.property_id b.property_id 2 :: t,
             (userQueuePrefixStr ++ e.user_a_id) ::
              (userQueuePrefixStr ++ e.user_b_id) :: d,
             e.user_a_id :: e.user_b_id :: r) from by
          simp [pmpLoop, ha, hb, hefi, hfu, hrec]]
        refine ⟨by simp [insStmtOf, ha, hb], fun _ => ?_⟩
        refine ⟨by simp [updStmtOf, ha, hb], by simp, by simp⟩
    · have hres := ih e he' hea heb hefi
      rcases ha : alookup users f.user_a_id with _ | a
      · rw [show pmpLoop users fI fU (f :: rest) = pmpLoop users fI fU rest from by
          simp only [pmpLoop, ha]]
        exact hres
      · rcases hb : alookup users f.user_b_id with _ | b
        · rw [show pmpLoop users fI fU (f :: rest) = pmpLoop users fI fU rest from by
            simp only [pmpLoop, ha, hb]]
          exact hres
        · by_cases hfi : fI f.user_a_id f.user_b_id = true
          · rw [show pmpLoop users fI fU (f :: rest) = pmpLoop users fI fU rest from by
              simp [pmpLoop, ha, hb, hfi]]
            exact hres
          · rcases hrec : pmpLoop users fI fU rest with ⟨t, d, r⟩
            rw [hrec] at hres
            by_cases hfu : fU f.user_a_id f.user_b_id = true
            · rw [show pmpLoop users fI fU (f :: rest) =
                  (DbStmt.insertHistory (normalize_uuid a.user_id)
                    (normalize_uuid b.user_id) a.property_id b.property_id
                    a.survey_id b.survey_id f.score :: t, d, r) from by
                simp [pmpLoop, ha, hb, hfi, hfu, hrec]]
              exact ⟨List.mem_cons_of_mem _ hres.1, fun h => ⟨
                List.mem_cons_of_mem _ (hres.2 h).1, (hres.2 h).2.1, (hres.2 h).2.2⟩⟩
            · rw [show pmpLoop users fI fU (f :: rest) =
                  (DbStmt.insertHistory (normalize_uuid a.user_id)
                    (normalize_uuid b.user_id) a.property_id b.property_id
                    a.survey_id b.survey_id f.score ::
                    DbStmt.updateStatus a.property_id b.property_id 2 :: t,
                   (userQueuePrefixStr ++ f.user_a_id) ::
                    (userQueuePrefixStr ++ f.user_b_id) :: d,
                   f.user_a_id :: f.user_b_id :: r) from by
                simp [pmpLoop, ha, hb, hfi, hfu, hrec]]
              exact ⟨List.mem_cons_of_mem _ (List.mem_cons_of_mem _ hres.1),
                fun h => ⟨List.mem_cons_of_mem _ (List.mem_cons_of_mem _ (hres.2 h).1),
                  List.mem_cons_of_mem _ (List.mem_cons_of_mem _ (hres.2 h).2.1),
                  List.mem_cons_of_mem _ (List.mem_cons_of_mem _ (hres.2 h).2.2)⟩⟩

/-- Claim C4 (amended).  There is one commit per cycle, and it is
all-or-nothing for the whole batch: a commit failure drops every
statement (while earlier cache deletions stand).  Per pair: a failed
INSERT or UPDATE prevents that pair's queue deletions; a fully successful
pair contributes its INSERT and UPDATE and both deletions.  But the claim's
per-pair atomicity is false: after a failed UPDATE the already-executed
INSERT is not rolled back — it stays in the transaction and is
committed with the batch. -/
theorem pair_commit_semantics (pairs : List AEdge)
    (users : List (String × QueueUser)) (failIns failUpd : String → String → Bool)
    (failCommit : Bool)
    (hdisj : pairs.Pairwise DisjointPair)
    (hpres : ∀ e ∈ pairs, (alookup users e.user_a_id).isSome ∧
      (alookup users e.user_b_id).isSome) :
    (failCommit = true →
      db_applied (process_matched_pairs pairs users failIns failUpd failCommit) = []) ∧
    (failCommit = false →
      db_applied (process_matched_pairs pairs users failIns failUpd failCommit) =
        (process_matched_pairs pairs users failIns failUpd failCommit).txn) ∧
    ∀ e ∈ pairs,
      ((failIns e.user_a_id e.user_b_id = true ∨ failUpd e.user_a_id e.user_b_id = true) →
        e.user_a_id ∉
          (process_matched_pairs pairs users failIns failUpd failCommit).removed_users ∧
        e.user_b_id ∉
          (process_matched_pairs pairs users failIns failUpd failCommit).removed_users) ∧
      (failIns e.user_a_id e.user_b_id = false →
        insStmtOf users e ∈
          (process_matched_pairs pairs users failIns failUpd failCommit).txn) ∧
      (failIns e.user_a_id e.user_b_id = false →
        failUpd e.user_a_id e.user_b_id = false →
        updStmtOf users e ∈
          (process_matched_pairs pairs users failIns failUpd failCommit).txn ∧
        e.user_a_id ∈
          (process_matched_pairs pairs users failIns failUpd failCommit).removed_users ∧
        e.user_b_id ∈
          (process_matched_pairs pairs users failIns failUpd failCommit).removed_users) := by
  rw [process_matched_pairs_eq]
  refine ⟨?_, ?_, ?_⟩
  · intro hfc
    simp [db_applied, hfc]
  · intro hfc
    simp [db_applied, hfc]
  · intro e he
    have hnotmem : (failIns e.user_a_id e.user_b_id = true ∨
        failUpd e.user_a_id e.user_b_id = true) →
        ∀ x, (x = e.user_a_id ∨ x = e.user_b_id) →
          x ∉ (pmpLoop users failIns failUpd pairs).2.2 := by
      intro hfail x hxid hx
      obtain ⟨e', he', hxe', hfi', hfu'⟩ := pmpLoop_removed_mem users failIns failUpd
        pairs x hx
      by_cases heq : e = e'
      · subst heq
        rcases hfail with hf | hf
        · rw [hf] at hfi'; exact absurd hfi' (by simp)
        · rw [hf] at hfu'; exact absurd hfu' (by simp)
      · have hd : DisjointPair e e' :=
          hdisj.forall (fun p q h => h.symm') he he' heq
        unfold DisjointPair at hd
        rcases hxid with rfl | rfl <;> rcases hxe' with h' | h' <;> tauto
    refine ⟨fun hfail => ⟨hnotmem hfail _ (Or.inl rfl), hnotmem hfail _ (Or.inr rfl)⟩,
      ?_, ?_⟩
    · intro hfi
      exact (pmpLoop_success_mem users failIns failUpd pairs e he
        (hpres e he).1 (hpres e he).2 hfi).1
    · intro hfi hfu
      exact (pmpLoop_success_mem users failIns failUpd pairs e he
        (hpres e he).1 (hpres e he).2 hfi).2 hfu

/-- Claim C4 (witness): the amended theorem applied to the single pair
`x–y` with no failures. -/
theorem pair_commit_semantics_witness :
    (False = true →
      db_applied (process_matched_pairs [c4pair] c4users
        (fun _ _ => false) (fun _ _ => false) false) = []) ∧
    (false = false →
      db_applied (process_matched_pairs [c4pair] c4users
        (fun _ _ => false) (fun _ _ => false) false) =
        (process_matched_pairs [c4pair] c4users
          (fun _ _ => false) (fun _ _ => false) false).txn) ∧
    ∀ e ∈ [c4pair],
      ((false = true ∨ false = true) →
        e.user_a_id ∉ (process_matched_pairs [c4pair] c4users
          (fun _ _ => false) (fun _ _ => false) false).removed_users ∧
        e.user_b_id ∉ (process_matched_pairs [c4pair] c4users
          (fun _ _ => false) (fun _ _ => false) false).removed_users) ∧
      (false = false →
        insStmtOf c4users e ∈ (process_matched_pairs [c4pair] c4users
          (fun _ _ => false) (fun _ _ => false) false).txn) ∧
      (false = false → false = false →
        updStmtOf c4users e ∈ (process_matched_pairs [c4pair] c4users
          (fun _ _ => false) (fun _ _ => false) false).txn ∧
        e.user_a_id ∈ (process_matched_pairs [c4pair] c4users
          (fun _ _ => false) (fun _ _ => false) false).removed_users ∧
        e.user_b_id ∈ (process_matched_pairs [c4pair] c4users
          (fun _ _ => false) (fun _ _ => false) false).removed_users) := by
  have h := pair_commit_semantics [c4pair] c4users
    (fun _ _ => false) (fun _ _ => false) false
    (by simp) (by intro e he; fin_cases he; exact ⟨rfl, rfl⟩)
  exact ⟨fun hh => by simp at hh, h.2.1, h.2.2⟩

/-- Claim C4 (counterexample).  Pair `x–y`: the INSERT succeeds, the UPDATE
fails.  The pair's INSERT is not rolled back: it stays in the
transaction and the commit at the end of the cycle makes it durable,
while the status updates never ran — insert and updates did not "succeed
or fail together". -/
theorem partial_pair_commit_counterexample :
    process_matched_pairs [c4pair] c4users
        (fun _ _ => false) (fun _ _ => true) false =
      { txn := [DbStmt.insertHistory "x" "y" 1 2 11 12 85], committed := true,
        cache_deleted := [], removed_users := [] } ∧
    db_applied (process_matched_pairs [c4pair] c4users
        (fun _ _ => false) (fun _ _ => true) false) =
      [DbStmt.insertHistory "x" "y" 1 2 11 12 85] := by
  constructor
  · rfl
  · rfl

/-- Claim C3 (witness): the amended theorem applied to queue `[X]` at a
time 100000 s past registration and the selected pair `x–y`. -/
theorem removed_entry_has_transition_witness :
    ((remove_expired_users [c3qX] 100000 false).cache_deleted =
      (remove_expired_users [c3qX] 100000 false).expired.map
        (fun u => userQueuePrefixStr ++ u.user_id)) ∧
    ((remove_expired_users [c3qX] 100000 false).transitions.Nodup ∧
     ∀ u ∈ (remove_expired_users [c3qX] 100000 false).expired,
       (u.property_id, 9) ∈ (remove_expired_users [c3qX] 100000 false).transitions) ∧
    (db_applied (process_matched_pairs [c4pair] c4users
        (fun _ _ => false) (fun _ _ => false) false) =
      [c4pair].bind (fun e => [insStmtOf c4users e, updStmtOf c4users e])) ∧
    ((process_matched_pairs [c4pair] c4users
        (fun _ _ => false) (fun _ _ => false) false).cache_deleted =
      [c4pair].bind (fun e => [userQueuePrefixStr ++ e.user_a_id,
        userQueuePrefixStr ++ e.user_b_id])) :=
  removed_entry_has_transition [c3qX] 100000 [c4pair] c4users
    (by simp) (by intro e he; fin_cases he; exact ⟨rfl, rfl⟩)

/-! ### Claim C8 -/

/-- `registered_at` ascending (the sort of `get_new_users`). -/
def regLe (u v : CalcUser) : Bool := decide (u.registered_at ≤ v.registered_at)

/-- `get_new_users`: the entries with `edge_calculated` unset, sorted by
`registered_at`. -/
def get_new_users (all_users : List CalcUser) : List CalcUser :=
  (all_users.filter (fun u => !u.edge_calculated)).mergeSort regLe

/-- `get_calculated_users`. -/
def get_calculated_users (all_users : List CalcUser) : List CalcUser :=
  all_users.filter (fun u => u.edge_calculated)

/-- Claim C8 (amended).  A queue entry whose processing raises (a malformed
entry, e.g. a non-numeric survey value under a weighted shared key) is
never marked processed — `mark_as_calculated` is only reached on the
success path — and, still having `edge_calculated = false`, it is listed
among the new users of every subsequent tick that still sees it.  (A
missing survey key, by contrast, is not an error: see the
counterexample.) -/
theorem malformed_entry_not_marked (u : CalcUser) (calculated : List CalcUser)
    (now : ℤ) (msg : String) (es : List EdgeVal)
    (herr : process_new_user u calculated now = .error (msg, es))
    (hnew : u.edge_calculated = false) :
    (∀ edges marked, process_new_user u calculated now ≠ .ok (edges, marked)) ∧
    (∀ all_users : List CalcUser, u ∈ all_users → u ∈ get_new_users all_users) := by
  constructor
  · intro edges marked hok
    rw [herr] at hok
    exact Except.noConfusion hok
  · intro all_users hall
    unfold get_new_users
    rw [(List.mergeSort_perm _ regLe).mem_iff]
    rw [List.mem_filter]
    exact ⟨hall, by simp [hnew]⟩

/-- Already-calculated neighbour with a numeric answer for key `k`. -/
def c8v : CalcUser :=
  { user_pk := 21, basic := cexBasic, survey := [("k", .num 3)],
    weights := [("k", 1)], priority := 0, registered_at := 0,
    edge_calculated := true }

/-- Malformed new entry: survey value for `k` is the string `"3"`. -/
def c8bad : CalcUser :=
  { user_pk := 20, basic := cexBasic, survey := [("k", .str "3")],
    weights := [("k", 1)], priority := 0, registered_at := 0,
    edge_calculated := false }

/-- Claim C8 (witness): the amended theorem applied to the malformed entry
`c8bad`, whose scoring against `c8v` raises `TypeError`. -/
theorem malformed_entry_not_marked_witness :
    (∀ edges marked, process_new_user c8bad [c8v] 0 ≠ .ok (edges, marked)) ∧
    (∀ all_users : List CalcUser, c8bad ∈ all_users →
      c8bad ∈ get_new_users all_users) :=
  malformed_entry_not_marked c8bad [c8v] 0 "TypeError" [] rfl rfl

/-- New entry whose survey is missing the weighted key `k` entirely. -/
def c8miss : CalcUser :=
  { user_pk := 10, basic := cexBasic, survey := [], weights := [("k", 1)],
    priority := 0, registered_at := 0, edge_calculated := false }

/-- Claim C8 (counterexample).  An entry with a missing survey key is not
skipped: the missing key is renormalized away (both directional scores
become `0`), an edge is saved, and the entry IS marked processed —
`edge_calculated` does not stay `false`, contradicting the claim. -/
theorem missing_survey_key_marks_processed :
    c8miss.edge_calculated = false ∧
    process_new_user c8miss [c8v] 0 =
      .ok ([save_edge c8miss c8v 0 0],
        { c8miss with edge_calculated := true }) := by
  have hs : calculate_final_score c8miss c8v = .ok 0 := by
    norm_num [calculate_final_score, calculate_similarity,
      calculate_one_direction, dirLoop, alookup, List.find?,
      calculate_basic_penalty, calculate_preference_penalty, PENALTY_SCORE,
      round2, rhe, c8miss, c8v, cexBasic, Except.bind, pure, Except.pure, bind]
  refine ⟨rfl, ?_⟩
  unfold process_new_user process_new_user_loop
  rw [show (c8v.user_pk == c8miss.user_pk) = false from rfl]
  rw [show check_hard_filter c8miss c8v = true from rfl]
  simp only [Bool.false_eq_true, if_false, Bool.true_eq_false, hs]
  rfl

/-! ### Claim C9 -/

lemma alookup_map_replace_eq (l : List (String × α)) (k : String) (w : α) :
    alookup (l.map (fun p => if p.1 == k then (p.1, w) else p)) k =
      (alookup l k).map (fun _ => w) := by
  induction l with
  | nil => rfl
  | cons p rest ih =>
    simp only [List.map_cons]
    by_cases hp : (p.1 == k) = true
    · rw [if_pos hp]
      unfold alookup
      rw [List.find?_cons, List.find?_cons]
      simp only [hp]
      rfl
    · rw [if_neg hp]
      unfold alookup
      rw [List.find?_cons, List.find?_cons]
      simp only [Bool.not_eq_true] at hp
      simp only [hp]
      exact ih

lemma alookup_map_replace_ne (l : List (String × α)) (k k' : String) (w : α)
    (h : k' ≠ k) :
    alookup (l.map (fun p => if p.1 == k then (p.1, w) else p)) k' =
      alookup l k' := by
  induction l with
  | nil => rfl
  | cons p rest ih =>
    simp only [List.map_cons]
    by_cases hp : (p.1 == k) = true
    · rw [if_pos hp]
      unfold alookup
      have hpk : p.1 = k := by simpa using hp
      have hne : (p.1 == k') = false := by simp [hpk, Ne.symm h]
      rw [List.find?_cons, List.find?_cons]
      simp only [hne]
      exact ih
    · rw [if_neg hp]
      unfold alookup
      rw [List.find?_cons, List.find?_cons]
      by_cases hq : (p.1 == k') = true
      · simp only [hq]
      · simp only [Bool.not_eq_true] at hq
        simp only [hq]
        exact ih

/-- Claim C9.  `mark_as_calculated` re-reads the fresh cached value `y`
under the key and writes back exactly `y` with only `edge_calculated` set:
every other field — in particular `priority` — keeps the freshly read
value, and no other cache key is touched. -/
theorem mark_as_calculated_frame (cache : List (String × CalcUser))
    (rkey : String) (y : CalcUser) (h : alookup cache rkey = some y) :
    alookup (mark_as_calculated cache rkey) rkey =
      some { y with edge_calculated := true } ∧
    ({ y with edge_calculated := true }).priority = y.priority ∧
    ({ y with edge_calculated := true }).user_pk = y.user_pk ∧
    ({ y with edge_calculated := true }).basic = y.basic ∧
    ({ y with edge_calculated := true }).survey = y.survey ∧
    ({ y with edge_calculated := true }).weights = y.weights ∧
    ({ y with edge_calculated := true }).registered_at = y.registered_at ∧
    ∀ k', k' ≠ rkey →
      alookup (mark_as_calculated cache rkey) k' = alookup cache k' := by
  unfold mark_as_calculated
  rw [h]
  refine ⟨?_, rfl, rfl, rfl, rfl, rfl, rfl, ?_⟩
  · rw [alookup_map_replace_eq, h]
    rfl
  · intro k' hk'
    exact alookup_map_replace_ne _ _ _ _ hk'

/-- Entry `Y` as freshly re-read after the scheduler's concurrent write:
priority already `3`, `edge_calculated` still `false`. -/
def c9y : CalcUser :=
  { user_pk := 30, basic := cexBasic, survey := [("k", .num 3)],
    weights := [("k", 1)], priority := 3, registered_at := 0,
    edge_calculated := false }

/-- The cache holding `Y` under its queue key. -/
def c9cache : List (String × CalcUser) := [("match:user-queue:Y", c9y)]

/-- Claim C9 (witness): marking `Y` after the scheduler set its priority to
`3` yields `edge_calculated = true` and `priority = 3` — neither field
clobbered. -/
theorem mark_as_calculated_frame_witness :
    alookup (mark_as_calculated c9cache "match:user-queue:Y")
        "match:user-queue:Y" = some { c9y with edge_calculated := true } ∧
    ({ c9y with edge_calculated := true }).priority = c9y.priority ∧
    ({ c9y with edge_calculated := true }).user_pk = c9y.user_pk ∧
    ({ c9y with edge_calculated := true }).basic = c9y.basic ∧
    ({ c9y with edge_calculated := true }).survey = c9y.survey ∧
    ({ c9y with edge_calculated := true }).weights = c9y.weights ∧
    ({ c9y with edge_calculated := true }).registered_at = c9y.registered_at ∧
    ∀ k', k' ≠ "match:user-queue:Y" →
      alookup (mark_as_calculated c9cache "match:user-queue:Y") k' =
        alookup c9cache k' :=
  mark_as_calculated_frame c9cache "match:user-queue:Y" c9y rfl

/-! ### Claim C10 -/

/-- The weight keys present in both surveys. -/
def sharedWeights (u v : CalcUser) : List (String × ℚ) :=
  u.weights.filter (fun p =>
    (alookup u.survey p.1).isSome && (alookup v.survey p.1).isSome)

/-- The weighted average renormalized over only the shared keys. -/
def specSRenorm (u v : CalcUser) : ℚ :=
  if ((sharedWeights u v).map (·.2)).sum = 0 then 0
  else ((sharedWeights u v).map (fun p =>
    p.2 * (1 - |numD (alookup u.survey p.1) - numD (alookup v.survey p.1)| / 4))).sum /
    ((sharedWeights u v).map (·.2)).sum

lemma dirLoop_renorm (sf st : List (String × SVal)) :
    ∀ (l : List (String × ℚ)) (ws wt : ℚ),
      (∀ p ∈ l, ∀ a b, alookup sf p.1 = some a → alookup st p.1 = some b →
        (∃ qa, a = SVal.num qa) ∧ (∃ qb, b = SVal.num qb)) →
      dirLoop sf st l ws wt = .ok
        (ws + ((l.filter (fun p =>
            (alookup sf p.1).isSome && (alookup st p.1).isSome)).map (fun p =>
            p.2 * (1 - |numD (alookup sf p.1) - numD (alookup st p.1)| / 4))).sum,
         wt + ((l.filter (fun p =>
            (alookup sf p.1).isSome && (alookup st p.1).isSome)).map (·.2)).sum) := by
  intro l
  induction l with
  | nil => intro ws wt _; simp [dirLoop]
  | cons p rest ih =>
    intro ws wt h
    obtain ⟨k, w⟩ := p
    rcases ha : alookup sf k with _ | a
    · simp only [dirLoop, ha]
      rw [ih _ _ (fun p hp => h p (List.mem_cons_of_mem _ hp))]
      simp [List.filter_cons, ha]
    · rcases hb : alookup st k with _ | b
      · simp only [dirLoop, ha, hb]
        rw [ih _ _ (fun p hp => h p (List.mem_cons_of_mem _ hp))]
        simp [List.filter_cons, ha, hb]
      · obtain ⟨⟨qa, rfl⟩, ⟨qb, rfl⟩⟩ :=
          h (k, w) (List.mem_cons_self _ _) _ _ ha hb
        simp only [dirLoop, ha, hb]
        rw [ih _ _ (fun p hp => h p (List.mem_cons_of_mem _ hp))]
        simp only [Except.ok.injEq, Prod.mk.injEq, List.filter_cons]
        constructor
        · simp [ha, hb, numD]
          ring
        · simp [ha, hb]
          ring

/-- Claim C10.  For weight keys missing from either survey, the directional
score silently drops the key from both the weighted sum and the weight
total (no error is raised): the result is the weighted average
renormalized over the keys present in both surveys, and a dropped key's
weight does not appear in the denominator. -/
theorem directional_score_renormalizes (u v : CalcUser)
    (hnum : ∀ p ∈ u.weights, ∀ a b, alookup u.survey p.1 = some a →
      alookup v.survey p.1 = some b →
      (∃ qa, a = SVal.num qa) ∧ (∃ qb, b = SVal.num qb)) :
    calculate_one_direction u v = .ok (specSRenorm u v) ∧
    ∀ p ∈ u.weights, (alookup u.survey p.1 = none ∨ alookup v.survey p.1 = none) →
      p ∉ sharedWeights u v := by
  constructor
  · unfold calculate_one_direction specSRenorm sharedWeights
    rw [dirLoop_renorm u.survey v.survey u.weights 0 0 hnum]
    simp only [Except.bind, bind, zero_add]
    split <;> rfl
  · intro p _ hmiss hshared
    rw [sharedWeights, List.mem_filter] at hshared
    rcases hmiss with hm | hm <;> rw [hm] at hshared <;> simp at hshared

/-- New entry for the C10 witness: weight on `k` (shared) and on `m`
(missing from its own survey). -/
def c10u : CalcUser :=
  { user_pk := 40, basic := cexBasic,
    survey := [("k", .num 3)], weights := [("k", 1), ("m", 2)],
    priority := 0, registered_at := 0, edge_calculated := false }

/-- Neighbour for the C10 witness (key `k` only). -/
def c10v : CalcUser :=
  { user_pk := 41, basic := cexBasic, survey := [("k", .num 5)],
    weights := [("k", 1)], priority := 0, registered_at := 0,
    edge_calculated := true }

/-- Claim C10 (witness): the theorem applied to `c10u`, `c10v`, where the
weighted key `m` is missing from both surveys. -/
theorem directional_score_renormalizes_witness :
    calculate_one_direction c10u c10v = .ok (specSRenorm c10u c10v) ∧
    ∀ p ∈ c10u.weights,
      (alookup c10u.survey p.1 = none ∨ alookup c10v.survey p.1 = none) →
      p ∉ sharedWeights c10u c10v :=
  directional_score_renormalizes c10u c10v (by
    intro p hp
    fin_cases hp
    · intro a b ha hb
      refine ⟨⟨3, ?_⟩, ⟨5, ?_⟩⟩
      · have : alookup c10u.survey "k" = some (SVal.num 3) := rfl
        rw [this] at ha
        exact (Option.some.injEq _ _ ▸ ha).symm
      · have : alookup c10v.survey "k" = some (SVal.num 5) := rfl
        rw [this] at hb
        exact (Option.some.injEq _ _ ▸ hb).symm
    · intro a b ha _
      have : alookup c10u.survey "m" = none := rfl
      rw [this] at ha
      exact absurd ha (Option.noConfusion))

end GMatch
